import Mathlib

/-!
Verification of the voice-replacement pipeline (backend/app/services of the
`voice` repository) against its natural-language specification.

The Python services are shallowly embedded: pure computations become Lean
functions over `ℚ` (the source's float arithmetic is modelled exactly by
rational arithmetic), the stateful task workers become functions that return
the full trace of task-record states they write, and Python exceptions are
modelled by the explicit control flow the `try/except` blocks realize.
-/

namespace VoiceT

/-! ## Task status and record types (app/models, app/db)

Statuses used by every pipeline task: pending, processing, completed, failed.
-/

inductive TStatus where
  | pending
  | processing
  | completed
  | failed
deriving DecidableEq, Repr

/-- A status is terminal when it is completed or failed. -/
def TStatus.terminal : TStatus → Bool
  | .completed => true
  | .failed => true
  | _ => false

/-! ## Voice embedding engine (services/voice_clone.py) -/

/-- Arithmetic mean of a list of rationals; models `np.mean` (division by the
length; the empty case does not arise in the modelled call sites). -/
def qMean (l : List ℚ) : ℚ := l.sum / l.length

/-- TTS parameter dictionary, as consumed by `adapt_tts_params`.  The source
passes a Python dict; `pitch`/`energy` are `Option` because the dict may lack
those keys (`params.get(..., default)` versus `params[...]`, which raises
`KeyError`, matter in `adapt_tts_params`). -/
structure TTSParams where
  speed : ℚ
  pitch : Option ℚ
  energy : Option ℚ
  speaker_embedding : Option (List ℚ)
deriving DecidableEq, Repr

/-- `max lo (min hi x)`: the clamping pattern `max(lo, min(hi, x))` used at
voice_clone.py lines 324-325. -/
def clampQ (lo hi x : ℚ) : ℚ := max lo (min hi x)

/-- Neural branch of `adapt_tts_params` (voice_clone.py lines 297-299):
embeddings longer than 50 entries are passed through as
`speaker_embedding`, scalar params untouched. -/
def adapt_neural (embedding : List ℚ) (params : TTSParams) : TTSParams :=
  { params with speaker_embedding := some embedding }

/-- Scalar branch of `adapt_tts_params` (voice_clone.py lines 301-331),
including its Python exception semantics:
* reading `embedding[0..3]` with fewer than 4 entries raises `IndexError`
  before any parameter is mutated, and the `except` returns the params as
  they are — hence the `4 ≤ embedding.length` guard returning `params`
  unchanged otherwise;
* `params["pitch"]`/`params["energy"]` at the clamping lines raise `KeyError`
  when the key is absent, and the `except` returns the params mutated so
  far — hence the `match` on the `Option` fields. -/
def adapt_scalar (embedding : List ℚ) (params : TTSParams) : TTSParams :=
  if h : 4 ≤ embedding.length then
    let pitch_mean := embedding.get ⟨0, by omega⟩
    let energy_mean := embedding.get ⟨2, by omega⟩
    let base_pitch := params.pitch.getD 0
    let p1 := if 100 < pitch_mean ∧ pitch_mean < 300 then
        { params with pitch := some (base_pitch + (pitch_mean - 170) / 100 * (3/10)) }
      else params
    let base_energy := p1.energy.getD 1
    let adjEnergy : ℚ :=
      base_energy * max (8/10) (min (12/10) (1 + (energy_mean - 1/10) / (2/10) * (2/10)))
    let p2 := if 0 < energy_mean then { p1 with energy := some adjEnergy } else p1
    match p2.pitch with
    | none => p2
    | some pv =>
      let p3 := { p2 with pitch := some (clampQ (-1) 1 pv) }
      match p3.energy with
      | none => p3
      | some ev => { p3 with energy := some (clampQ (1/2) 2 ev) }
  else params

/-- `VoiceCloner.adapt_tts_params` (voice_clone.py lines 282-331): dispatch on
the `len(embedding) > 50` heuristic. -/
def adapt_tts_params (embedding : List ℚ) (base_params : TTSParams) : TTSParams :=
  if 50 < embedding.length then adapt_neural embedding base_params
  else adapt_scalar embedding base_params

/-- Number of MFCC coefficients used by `_extract_traditional`
(`n_mfcc=20` at voice_clone.py line 112). -/
def n_mfcc : ℕ := 20

/-- Concatenation `[pitch_mean, pitch_std, energy_mean, energy_std,
spectral_centroid, spectral_bandwidth, spectral_contrast] + mfcc_means`
shared by `_extract_traditional` (lines 137-141) and `load_voice_embedding`
(lines 217-221). -/
def traditional_embedding (pitch_mean pitch_std energy_mean energy_std
    spectral_centroid spectral_bandwidth spectral_contrast : ℚ)
    (mfcc_means : List ℚ) : List ℚ :=
  [pitch_mean, pitch_std, energy_mean, energy_std,
   spectral_centroid, spectral_bandwidth, spectral_contrast] ++ mfcc_means

/-- `VoiceEncoder._extract_traditional` (voice_clone.py lines 95-143): the
hand-engineered embedding built from the scalar acoustic features and the
per-coefficient means of the MFCC matrix.  The librosa feature extractors are
opaque; `mfcc_rows` stands for the rows of `librosa.feature.mfcc(...,
n_mfcc=20)`, which by librosa's contract has exactly `n_mfcc` rows. -/
def extract_traditional_embedding (pm ps em es sc sb sct : ℚ)
    (mfcc_rows : List (List ℚ)) : List ℚ :=
  traditional_embedding pm ps em es sc sb sct (mfcc_rows.map qMean)

/-- Traditional branch of `VoiceCloner.load_voice_embedding` (voice_clone.py
lines 206-223): the embedding reconstructed from a stored features file;
a missing `mfcc_means` key defaults to `[0] * 20`. -/
def load_traditional_embedding (pm ps em es sc sb sct : ℚ)
    (stored_mfcc_means : Option (List ℚ)) : List ℚ :=
  traditional_embedding pm ps em es sc sb sct
    (stored_mfcc_means.getD (List.replicate 20 0))

/-! ## Transcription stage (services/replace_service.py)

The voice-activity detector works on the short-time RMS energy sequence
computed by librosa.  The librosa call is opaque, so the energy sequence is
the model's input; the frame times are `librosa.times_like`, i.e.
`times[i] = i * hop_length / sr` with `hop_length = int(0.010 * sr)`.
-/

/-- `int(0.010 * sr)` (replace_service.py line 122), for `sr > 0` this is the
floor. -/
def vadHopLength (sr : ℚ) : ℚ := (⌊sr / 100⌋ : ℤ)

/-- Time of frame `i`: `i * hop_length / sr` (`librosa.times_like`). -/
def vadTimeStep (sr : ℚ) : ℚ := vadHopLength sr / sr

/-- Scan state of the `for i, energy in enumerate(rms)` loop of
`detect_speech_segments` (replace_service.py lines 134-149). -/
structure VadState where
  inSpeech : Bool
  speechStart : ℚ
  segs : List (ℚ × ℚ)
deriving DecidableEq, Repr

/-- One iteration of the VAD scan (replace_service.py lines 138-149).
`c` is the time step, `ie` the `(i, energy)` pair. -/
def vadStep (thr minDur maxDur c : ℚ) (s : VadState) (ie : ℕ × ℚ) : VadState :=
  let t : ℚ := (ie.1 : ℚ) * c
  if s.inSpeech = false ∧ thr < ie.2 then
    { s with inSpeech := true, speechStart := t }
  else if s.inSpeech = true ∧ (ie.2 ≤ thr ∨ maxDur ≤ t - s.speechStart) then
    { inSpeech := false, speechStart := s.speechStart,
      segs := if minDur ≤ t - s.speechStart then s.segs ++ [(s.speechStart, t)] else s.segs }
  else s

/-- `detect_speech_segments` (replace_service.py lines 115-155) on the RMS
energy sequence: adaptive threshold `threshold * mean(rms)`, scan, and the
final still-in-speech segment closed at `times[-1]`. -/
def detect_speech_segments (energies : List ℚ) (sr : ℚ)
    (threshold minDur maxDur : ℚ) : List (ℚ × ℚ) :=
  let c := vadTimeStep sr
  let thr := threshold * qMean energies
  let s := energies.enum.foldl (vadStep thr minDur maxDur c) ⟨false, 0, []⟩
  let lastT : ℚ := ((energies.length - 1 : ℕ) : ℚ) * c
  if s.inSpeech = true ∧ minDur ≤ lastT - s.speechStart then
    s.segs ++ [(s.speechStart, lastT)]
  else s.segs

/-- `max(3, int(duration / 10))`, the number of fallback intervals
(replace_service.py lines 319 and 332). -/
def fallback_num_segments (d : ℚ) : ℕ := max 3 (Int.toNat ⌊d / 10⌋)

/-- The deterministic uniform fallback split used when VAD finds no segment
(and, with the estimated duration, when the audio is unreadable):
`start = i * (duration/num)`, `end = (i+1) * (duration/num) - 0.2`
(replace_service.py lines 322-325 and 335-338). -/
def fallback_segments (d : ℚ) : List (ℚ × ℚ) :=
  let n := fallback_num_segments d
  (List.range n).map (fun i : ℕ => ((i : ℚ) * (d / n), ((i : ℚ) + 1) * (d / n) - 1/5))

/-- A transcript segment.  `stop` models the source's `end` field (a Lean
keyword); the text comes from the template generator, abstracted by the
`texts` parameter below. -/
structure Segment where
  start : ℚ
  stop : ℚ
  text : String
deriving DecidableEq, Repr

/-- The `Transcription` model (app/models/replace.py). -/
structure Transcription where
  segments : List Segment
  language : String
  total_duration : ℚ
deriving DecidableEq, Repr

/-- `generate_realistic_transcription` (replace_service.py lines 158-235):
one `Segment(start, end, text)` per detected interval, language `"zh-CN"`,
and `total_duration = duration` — the duration argument, not a function of
the segment ends.  The randomly templated Chinese text is abstracted by
`texts`. -/
def generate_realistic_transcription (texts : ℕ → String) (duration : ℚ)
    (segs : List (ℚ × ℚ)) : Transcription :=
  { segments := segs.enum.map (fun p => ⟨p.2.1, p.2.2, texts p.1⟩)
    language := "zh-CN"
    total_duration := duration }

/-- A transcription-task record (`TranscriptionTaskDB`), restricted to the
fields the claims mention. -/
structure TransTaskRec where
  status : TStatus
  progress : ℚ
  error : Option String
  transcription : Option Transcription
deriving DecidableEq, Repr

/-- The duration and raw intervals chosen by `process_transcription_task`
(replace_service.py lines 307-338): on a successful audio load, the VAD
result or — when it is empty — the fallback split; on an unreadable file, the
duration estimate `file_size / (500*1024)` and the same uniform split. -/
def transcription_segments_of (loadOk : Bool) (d fileSize : ℚ)
    (vadSegs : List (ℚ × ℚ)) : ℚ × List (ℚ × ℚ) :=
  if loadOk then (d, if vadSegs = [] then fallback_segments d else vadSegs)
  else
    let est := fileSize / (500 * 1024)
    (est, fallback_segments est)

/-- `process_transcription_task` (replace_service.py lines 270-448) as the
trace of task-record states it writes, starting from the record created by
`transcribe_media` (status processing, progress 0).  `mediaFound` is whether
the media record lookup succeeds (its failure raises and the handler marks
the task failed); `loadOk` whether `librosa.load` succeeds; `vadSegs` the
VAD result on the loaded audio. -/
def process_transcription_task (texts : ℕ → String) (mediaFound loadOk : Bool)
    (d fileSize : ℚ) (vadSegs : List (ℚ × ℚ)) : List TransTaskRec :=
  let r0 : TransTaskRec := ⟨.processing, 0, none, none⟩
  if mediaFound = false then
    [r0, { r0 with status := .failed, error := some "媒体文件未找到" }]
  else
    let r1 := { r0 with progress := 1/10 }
    let ds := transcription_segments_of loadOk d fileSize vadSegs
    let r2 := { r1 with progress := 3/10 }
    let tr := generate_realistic_transcription texts ds.1 ds.2
    let r3 := { r2 with progress := 7/10 }
    let r4 := { r3 with status := .completed, progress := 1, transcription := some tr }
    [r0, r1, r2, r3, r4]

/-! ## Task id allocation (replace_service.py / tts_service.py)

Each id is a pure function of the wall-clock second `int(time.time())` and a
suffix derived from the input reference — there is no random or monotonic
component.
-/

/-- `f-string` zero padding `{x:04d}`. -/
def pad4 (x : ℕ) : String :=
  let s := toString x
  (List.replicate (4 - s.length) (Char.ofNat 48)).asString ++ s

/-- Python `s[-6:]`: the last (at most) 6 characters. -/
def strLast6 (s : String) : String := String.mk (s.data.drop (s.data.length - 6))

/-- Python `s[:8]`: the first (at most) 8 characters. -/
def strFirst8 (s : String) : String := String.mk (s.data.take 8)

/-- `upload_media` (replace_service.py line 75):
`f"media_{int(time.time())}_{hash(file.filename) % 10000:04d}"`. -/
def upload_media_file_id (t : ℕ) (filenameHash : ℕ) : String :=
  "media_" ++ toString t ++ "_" ++ pad4 (filenameHash % 10000)

/-- `transcribe_media` (replace_service.py line 250):
`f"transcribe_{int(time.time())}_{file_id[-6:]}"`. -/
def transcribe_media_task_id (t : ℕ) (file_id : String) : String :=
  "transcribe_" ++ toString t ++ "_" ++ strLast6 file_id

/-- `replace_voice` (replace_service.py line 471):
`f"replace_{int(time.time())}_{transcription_task_id[-6:]}"`. -/
def replace_voice_task_id (t : ℕ) (transcription_task_id : String) : String :=
  "replace_" ++ toString t ++ "_" ++ strLast6 transcription_task_id

/-- `synthesize_speech` (tts_service.py line 406):
`f"tts_{int(time.time())}_{voice_id[:8]}"`. -/
def synthesize_speech_task_id (t : ℕ) (voice_id : String) : String :=
  "tts_" ++ toString t ++ "_" ++ strFirst8 voice_id

/-! ## TTS worker (services/tts_service.py) -/

/-- A TTS task record (`TTSTaskDB`), restricted to the fields the claims
mention; `paramsAdapted` and `metricsSet` record the in-place mutations of
the `params` and `metrics` fields at tts_service.py lines 459 and 525. -/
structure TTSRec where
  status : TStatus
  progress : ℚ
  error : Option String
  file_path : Option String
  duration : Option ℚ
  paramsAdapted : Bool
  metricsSet : Bool
deriving DecidableEq, Repr

/-- The `str(e)` of the `UnboundLocalError` raised at tts_service.py line
462: the local variable `text` is read there but first assigned only at
line 468, so every run that reaches line 462 raises.  (Python encloses the
variable name in single quotes; the quotes are omitted here.) -/
def tts_unbound_msg : String := "local variable text referenced before assignment"

/-- `process_tts_task` (tts_service.py lines 427-553) as the trace of task
record states it writes, starting from the record created by
`synthesize_speech` (status pending, progress 0).  `voiceFound` is whether
the voice-sample lookup at line 449 succeeds (its failure raises and the
handler marks the task failed), `hasEmbedding` whether
`load_voice_embedding` returns a vector (in which case the task's params
are overwritten in place by `adapt_tts_params` at line 459).  Either way,
line 462 then reads the local `text` before its line-468 assignment and
raises `UnboundLocalError`, so the handler marks the task failed at
progress 0.1: the worker never reaches the progress-0.3/0.7 writes or the
completed state, and never sets `file_path`, `duration` or `metrics`. -/
def process_tts_task (voiceFound hasEmbedding : Bool) : List TTSRec :=
  let r0 : TTSRec := ⟨.pending, 0, none, none, none, false, false⟩
  let r1 := { r0 with status := .processing, progress := 1/10 }
  if voiceFound = false then
    [r0, r1, { r1 with status := .failed, error := some "声音样本未找到" }]
  else
    let r2 := { r1 with paramsAdapted := true }
    let rA := if hasEmbedding then r2 else r1
    let rf := { rA with status := .failed, error := some tts_unbound_msg }
    [r0, r1] ++ (if hasEmbedding then [r2] else []) ++ [rf]

/-- One entry of the `TTS_TASKS_DB` list: a task id and its record.  Ids
are not unique: `synthesize_speech` appends a fresh record whose id is a
pure function of the wall-clock second and the voice id, so two
submissions in the same second append two entries with the same id. -/
structure TTSTaskEntry where
  task_id : String
  record : TTSRec
deriving DecidableEq, Repr

/-- The first mutation a `process_tts_task` invocation performs on the
shared `TTS_TASKS_DB` (tts_service.py lines 431-446): it looks up the
FIRST record whose `task_id` matches and sets it to status processing,
progress 0.1, in place — regardless of that record's current (possibly
terminal) state. -/
def tts_set_processing_first (tid : String) : List TTSTaskEntry → List TTSTaskEntry
  | [] => []
  | e :: rest =>
    if e.task_id = tid then
      { e with record := { e.record with status := TStatus.processing, progress := 1/10 } } :: rest
    else e :: tts_set_processing_first tid rest

/-! ## Replace orchestrator (services/replace_service.py lines 451-730) -/

/-- A replace-task record (`ReplaceTaskDB`), restricted to the fields the
claims mention. -/
structure ReplaceRec where
  status : TStatus
  progress : ℚ
  error : Option String
  file_path : Option String
  output_filename : Option String
deriving DecidableEq, Repr

/-- Terminal state of one per-segment synthesis sub-task, as observed by the
orchestrator's polling loop (replace_service.py lines 601-628):
* `failed` — the sub-task ended `failed` (the orchestrator raises at line
  628, wrapped at line 631);
* `completedMissing` — the sub-task ended `completed` but
  `get_tts_task_result` returned `None` (its output file is gone), in which
  case the code silently skips the segment — the only way past a segment;
* `ok` — completed with an available result.  The result is a
  `TTSTaskStatus` (models/tts.py), which has no `file_path` field, so
  reading `tts_result.file_path` at line 615 raises `AttributeError`,
  wrapped by the inner handler at line 631: the parent task fails at this
  segment and the collection/copy code at lines 616-625 is unreachable. -/
inductive SynthOutcome where
  | failed
  | completedMissing
  | ok
deriving DecidableEq, Repr

/-- What the orchestrator writes to the output path on completion
(lines 660-706).  The `stitched` constructor stands for the concatenation
branch at lines 694-699; since no per-segment result is ever collected
(see `SynthOutcome.ok`), `tts_results` is always empty, `combined_audio`
stays empty, and both the video branch (line 664) and the audio branch
(lines 701-702) write a plain copy of the original media: completion only
ever yields `originalCopy`. -/
inductive Artifact where
  | stitched (entries : List (ℕ × ℚ))
  | originalCopy
deriving DecidableEq, Repr

/-- The error message for a segment `i` whose sub-task terminated failed
(replace_service.py lines 628 and 631): the inner handler wraps the
`ValueError` of line 628 into the one of line 631, whose string becomes the
task's `error` field. -/
def seg_fail_msg (i : ℕ) : String :=
  "处理片段 " ++ toString i ++ " 失败: 生成片段 " ++ toString i ++ " 的语音失败"

/-- The error message for a segment `i` whose sub-task completed with an
available result: line 615 reads `tts_result.file_path` on a
`TTSTaskStatus`, which has no such field, so Python raises
`AttributeError`, wrapped by the handler at line 631.  (Python encloses the
class and attribute names in single quotes; the quotes are omitted here.) -/
def seg_attr_msg (i : ℕ) : String :=
  "处理片段 " ++ toString i ++
    " 失败: TTSTaskStatus object has no attribute file_path"

/-- The message a segment aborts with, by sub-task outcome (an outcome of
`completedMissing` does not abort). -/
def seg_abort_msg (o : SynthOutcome) (i : ℕ) : String :=
  match o with
  | .failed => seg_fail_msg i
  | _ => seg_attr_msg i

/-- Progress written before submitting segment `i` of `n`
(line 575): `0.1 + 0.7 * ((i+1)/total_segments)`. -/
def replace_progress (n i : ℕ) : ℚ := 1/10 + 7/10 * (((i : ℚ) + 1) / (n : ℚ))

/-- Result of the per-segment loop: the record states written, the segment
indices for which a TTS sub-task was submitted, the record as it stands
when the loop ends, and the pending exception message if a segment aborted
the loop.  (The source also carries a `tts_results` list, but the only
append to it, at line 618, sits after the always-raising line 615, so it
stays empty in every run and is not modelled.) -/
structure LoopOut where
  trace : List ReplaceRec
  submitted : List ℕ
  finalRec : ReplaceRec
  abortMsg : Option String
deriving Repr

/-- The `for i, segment in enumerate(transcription.segments)` loop
(replace_service.py lines 573-631) over the enumerated remaining segments,
with current record `r`; `n` is `total_segments`.  Each iteration first
writes the progress for segment `i`, then submits and awaits the sub-task:
a failed sub-task raises at line 628 (ending the loop with `abortMsg`); a
completed one with a missing result is skipped; a completed one with an
available result raises `AttributeError` at line 615 (`TTSTaskStatus` has
no `file_path`), also ending the loop — nothing is ever collected. -/
def replace_loop (n : ℕ) (outcomes : ℕ → SynthOutcome) :
    List (ℕ × (ℚ × ℚ)) → ReplaceRec → LoopOut
  | [], r => ⟨[], [], r, none⟩
  | (i, _) :: rest, r =>
    let r1 := { r with progress := replace_progress n i }
    match outcomes i with
    | .failed => ⟨[r1], [i], r1, some (seg_fail_msg i)⟩
    | .completedMissing =>
      let out := replace_loop n outcomes rest r1
      ⟨r1 :: out.trace, i :: out.submitted, out.finalRec, out.abortMsg⟩
    | .ok => ⟨[r1], [i], r1, some (seg_attr_msg i)⟩

/-- Mark a record failed with an error message (the `except` handler at
replace_service.py lines 720-730: status and error are set, every other
field is left as it was). -/
def failRec (r : ReplaceRec) (msg : String) : ReplaceRec :=
  { r with status := .failed, error := some msg }

/-- Result of one `process_replace_task` run. -/
structure RunOut where
  trace : List ReplaceRec
  submitted : List ℕ
  artifact : Option Artifact
  finalRec : ReplaceRec
deriving Repr

/-- The replace-task record as created by `replace_voice` (status
processing, progress 0, replace_service.py lines 472-481). -/
def replace_r0 : ReplaceRec := ⟨.processing, 0, none, none, none⟩

/-- The record after the first status update (progress 0.1, lines
527-532). -/
def replace_r1 : ReplaceRec := { replace_r0 with progress := 1/10 }

/-- The record after the output filename is stored (lines 548-551). -/
def replace_r2 : ReplaceRec := { replace_r1 with output_filename := some "替换后_output" }

/-- `process_replace_task` (replace_service.py lines 493-730), starting from
the record created by `replace_voice` (status processing, progress 0).
`tFound` / `mFound` are whether the transcription-task and media lookups
succeed; `segs` are the `(start, end)` pairs of the transcript's segments;
`outcomes` gives each submitted sub-task's observed terminal state.  On a
loop that runs to the end (every outcome `completedMissing`), the
finalization runs with an empty `tts_results`: the video branch (line 664)
copies the original file, and the audio branch finds `combined_audio`
empty and also copies the original (lines 701-702) — either way the
artifact is `originalCopy`, never `stitched`. -/
def process_replace_task (tFound mFound isVideo : Bool)
    (segs : List (ℚ × ℚ)) (outcomes : ℕ → SynthOutcome) : RunOut :=
  if tFound = false then
    let rf := failRec replace_r0 "转写任务未找到"
    ⟨[replace_r0, rf], [], none, rf⟩
  else if mFound = false then
    let rf := failRec replace_r0 "媒体文件未找到"
    ⟨[replace_r0, rf], [], none, rf⟩
  else if segs.length = 0 then
    let rf := failRec replace_r2 "转写结果为空"
    ⟨[replace_r0, replace_r1, replace_r2, rf], [], none, rf⟩
  else
    let lo := replace_loop segs.length outcomes segs.enum replace_r2
    match lo.abortMsg with
    | some msg =>
      let rf := failRec lo.finalRec msg
      ⟨[replace_r0, replace_r1, replace_r2] ++ lo.trace ++ [rf], lo.submitted, none, rf⟩
    | none =>
      let r3 := { lo.finalRec with progress := 8/10 }
      let r4 := { r3 with status := .completed, progress := 1, file_path := some "replaced_output" }
      ⟨[replace_r0, replace_r1, replace_r2] ++ lo.trace ++ [r3, r4], lo.submitted,
        some Artifact.originalCopy, r4⟩

/-! ## Helper lemmas -/

theorem clampQ_le {lo hi : ℚ} (x : ℚ) (h : lo ≤ hi) : clampQ lo hi x ≤ hi :=
  max_le h (min_le_left _ _)

theorem le_clampQ (lo hi x : ℚ) : lo ≤ clampQ lo hi x := le_max_left _ _

/-- The scalar branch, run on an embedding with at least 4 entries and params
that carry both a `pitch` and an `energy` key, always ends in the two
clamping assignments. -/
theorem adapt_scalar_clamps (embedding : List ℚ) (params : TTSParams)
    (h4 : 4 ≤ embedding.length) (bp : ℚ) (hbp : params.pitch = some bp)
    (be : ℚ) (hbe : params.energy = some be) :
    ∃ p e, (adapt_scalar embedding params).pitch = some (clampQ (-1) 1 p) ∧
      (adapt_scalar embedding params).energy = some (clampQ (1/2) 2 e) := by
  rw [adapt_scalar, dif_pos h4]
  by_cases h1 : 100 < embedding.get ⟨0, by omega⟩ ∧ embedding.get ⟨0, by omega⟩ < 300 <;>
    by_cases h2 : 0 < embedding.get ⟨2, by omega⟩ <;>
      simp only [h1, h2, if_true, if_false, hbp, hbe, Option.getD_some, if_pos, if_neg,
        not_false_iff] <;>
    exact ⟨_, _, rfl, rfl⟩

/-! ## Claim C6 -/

/-- Claim C6 counterexample: the claim quantifies over every input embedding
and base params, but an embedding longer than 50 entries takes the neural
pass-through branch of `adapt_tts_params`, which leaves the scalar params
untouched — with base pitch 5 the returned pitch is 5, outside `[-1, 1]`. -/
theorem claim_C6_counterexample :
    (adapt_tts_params (List.replicate 51 (0 : ℚ))
        ⟨1, some 5, some 1, none⟩).pitch = some 5 ∧ ¬ ((5 : ℚ) ≤ 1) := by
  constructor
  · rfl
  · norm_num

/-- Claim C6, amended: for a hand-engineered embedding (at most 50 entries,
and at least the 4 the scalar branch reads) and base params that contain both
the `pitch` and the `energy` key, `adapt_tts_params` returns a pitch in
`[-1, 1]` and an energy in `[0.5, 2]`.  (The neural branch and the
exception fallbacks return the base params unchanged, so the bounds cannot
hold for arbitrary inputs.) -/
theorem claim_C6 (embedding : List ℚ) (params : TTSParams)
    (hlen : embedding.length ≤ 50) (h4 : 4 ≤ embedding.length)
    (hp : params.pitch.isSome) (he : params.energy.isSome) :
    ∃ p e, (adapt_tts_params embedding params).pitch = some p ∧
      -1 ≤ p ∧ p ≤ 1 ∧
      (adapt_tts_params embedding params).energy = some e ∧
      1/2 ≤ e ∧ e ≤ 2 := by
  obtain ⟨bp, hbp⟩ := Option.isSome_iff_exists.mp hp
  obtain ⟨be, hbe⟩ := Option.isSome_iff_exists.mp he
  rw [adapt_tts_params, if_neg (by omega)]
  obtain ⟨p, e, hpe, hee⟩ := adapt_scalar_clamps embedding params h4 bp hbp be hbe
  exact ⟨clampQ (-1) 1 p, clampQ (1/2) 2 e, hpe, le_clampQ _ _ _,
    clampQ_le _ (by norm_num), hee, le_clampQ _ _ _, clampQ_le _ (by norm_num)⟩

/-- Witness for claim C6 at a concrete hand-engineered embedding. -/
theorem claim_C6_witness :
    (([170, 10, 2/10, 1/10] : List ℚ).length ≤ 50 ∧
       4 ≤ ([170, 10, 2/10, 1/10] : List ℚ).length ∧
       (TTSParams.mk 1 (some 0) (some 1) none).pitch.isSome ∧
       (TTSParams.mk 1 (some 0) (some 1) none).energy.isSome) ∧
    (∃ p e,
      (adapt_tts_params [170, 10, 2/10, 1/10] (TTSParams.mk 1 (some 0) (some 1) none)).pitch = some p ∧
      -1 ≤ p ∧ p ≤ 1 ∧
      (adapt_tts_params [170, 10, 2/10, 1/10] (TTSParams.mk 1 (some 0) (some 1) none)).energy = some e ∧
      1/2 ≤ e ∧ e ≤ 2) :=
  ⟨⟨by decide, by decide, by decide, by decide⟩,
   claim_C6 [170, 10, 2/10, 1/10] (TTSParams.mk 1 (some 0) (some 1) none)
     (by decide) (by decide) (by decide) (by decide)⟩

/-! ## Claim C9 -/

theorem string_append_cancel_left (a b c : String) : a ++ b = a ++ c ↔ b = c := by
  constructor
  · intro h
    have hd := congrArg String.data h
    simp only [String.data_append] at hd
    exact String.ext (List.append_cancel_left hd)
  · intro h
    rw [h]

/-- Claim C9 counterexample: task/file id allocation is a pure function of
the wall-clock second and an input-derived suffix, with no random or
monotonic component, so it is not collision-free within one second.  Two
uploads in the same second whose (distinct) filename hashes agree modulo
10000 receive the identical file id. -/
theorem claim_C9_counterexample :
    (4242 : ℕ) ≠ 14242 ∧
    upload_media_file_id 1700000000 4242 = upload_media_file_id 1700000000 14242 := by
  constructor
  · decide
  · rfl

/-- Claim C9, amended: within one wall-clock second, two allocated ids are
equal exactly when their input-derived suffixes are equal (the last 6
characters of the source file id for transcription and replace tasks, the
first 8 characters of the voice id for TTS tasks, and the zero-padded
filename hash modulo 10000 for uploads).  Ids are therefore distinct within
a second only for inputs with distinct suffixes; duplicate submissions in
the same second collide. -/
theorem claim_C9 :
    (∀ (t : ℕ) (f1 f2 : String),
       transcribe_media_task_id t f1 = transcribe_media_task_id t f2 ↔
         strLast6 f1 = strLast6 f2) ∧
    (∀ (t : ℕ) (a b : String),
       replace_voice_task_id t a = replace_voice_task_id t b ↔
         strLast6 a = strLast6 b) ∧
    (∀ (t : ℕ) (v1 v2 : String),
       synthesize_speech_task_id t v1 = synthesize_speech_task_id t v2 ↔
         strFirst8 v1 = strFirst8 v2) ∧
    (∀ (t h1 h2 : ℕ),
       upload_media_file_id t h1 = upload_media_file_id t h2 ↔
         pad4 (h1 % 10000) = pad4 (h2 % 10000)) := by
  refine ⟨?_, ?_, ?_, ?_⟩ <;> intro t x y <;>
    simp only [transcribe_media_task_id, replace_voice_task_id,
      synthesize_speech_task_id, upload_media_file_id, ← String.append_assoc] <;>
    exact string_append_cancel_left _ _ _

/-! ## Claim C10 -/

/-- Claim C10 (implicit): every hand-engineered embedding — as produced by
`_extract_traditional` (whose MFCC matrix has `n_mfcc = 20` rows) and as
reconstructed by `load_voice_embedding` from a features file this system
wrote (20 stored MFCC means, or the `[0]*20` default when the key is
absent) — has exactly 7 + 20 = 27 entries, so `adapt_tts_params` always
takes the scalar-adjustment branch on it, never the `len > 50` neural
pass-through. -/
theorem claim_C10 (pm ps em es sc sb sct : ℚ) (mfcc_rows : List (List ℚ))
    (stored : Option (List ℚ)) (params : TTSParams)
    (hrows : mfcc_rows.length = n_mfcc)
    (hstored : stored = none ∨ ∃ l, stored = some l ∧ l.length = n_mfcc) :
    (extract_traditional_embedding pm ps em es sc sb sct mfcc_rows).length = 27 ∧
    (load_traditional_embedding pm ps em es sc sb sct stored).length = 27 ∧
    adapt_tts_params (extract_traditional_embedding pm ps em es sc sb sct mfcc_rows) params =
      adapt_scalar (extract_traditional_embedding pm ps em es sc sb sct mfcc_rows) params ∧
    adapt_tts_params (load_traditional_embedding pm ps em es sc sb sct stored) params =
      adapt_scalar (load_traditional_embedding pm ps em es sc sb sct stored) params := by
  have hx : (extract_traditional_embedding pm ps em es sc sb sct mfcc_rows).length = 27 := by
    simp [extract_traditional_embedding, traditional_embedding, hrows, n_mfcc]
  have hl : (load_traditional_embedding pm ps em es sc sb sct stored).length = 27 := by
    rcases hstored with h | ⟨l, hl, hlen⟩
    · simp [load_traditional_embedding, traditional_embedding, h]
    · simp [load_traditional_embedding, traditional_embedding, hl, hlen, n_mfcc]
  refine ⟨hx, hl, ?_, ?_⟩
  · rw [adapt_tts_params, if_neg (by omega)]
  · rw [adapt_tts_params, if_neg (by omega)]

/-- Witness for claim C10 at a concrete MFCC matrix and stored feature
file. -/
theorem claim_C10_witness :
    ((List.replicate 20 ([] : List ℚ)).length = n_mfcc ∧
       (some (List.replicate 20 (0 : ℚ)) = none ∨
         ∃ l, some (List.replicate 20 (0 : ℚ)) = some l ∧ l.length = n_mfcc)) ∧
    ((extract_traditional_embedding 0 0 0 0 0 0 0 (List.replicate 20 [])).length = 27 ∧
     (load_traditional_embedding 0 0 0 0 0 0 0 (some (List.replicate 20 0))).length = 27 ∧
     adapt_tts_params (extract_traditional_embedding 0 0 0 0 0 0 0 (List.replicate 20 []))
         (TTSParams.mk 1 (some 0) (some 1) none) =
       adapt_scalar (extract_traditional_embedding 0 0 0 0 0 0 0 (List.replicate 20 []))
         (TTSParams.mk 1 (some 0) (some 1) none) ∧
     adapt_tts_params (load_traditional_embedding 0 0 0 0 0 0 0 (some (List.replicate 20 0)))
         (TTSParams.mk 1 (some 0) (some 1) none) =
       adapt_scalar (load_traditional_embedding 0 0 0 0 0 0 0 (some (List.replicate 20 0)))
         (TTSParams.mk 1 (some 0) (some 1) none)) :=
  ⟨⟨by decide, Or.inr ⟨List.replicate 20 0, rfl, by decide⟩⟩,
   claim_C10 0 0 0 0 0 0 0 (List.replicate 20 []) (some (List.replicate 20 0))
     (TTSParams.mk 1 (some 0) (some 1) none) (by decide)
     (Or.inr ⟨List.replicate 20 0, rfl, by decide⟩)⟩

/-! ## Fallback-split helper lemmas -/

theorem fallback_num_segments_ge (d : ℚ) : 3 ≤ fallback_num_segments d :=
  le_max_left _ _

theorem fallback_num_segments_cast_pos (d : ℚ) :
    (0 : ℚ) < (fallback_num_segments d : ℚ) := by
  have := fallback_num_segments_ge d
  exact_mod_cast Nat.lt_of_lt_of_le (by norm_num) this

theorem mem_fallback_segments (d : ℚ) (p : ℚ × ℚ) :
    p ∈ fallback_segments d ↔
      ∃ i : ℕ, i < fallback_num_segments d ∧
        p = ((i : ℚ) * (d / fallback_num_segments d),
             ((i : ℚ) + 1) * (d / fallback_num_segments d) - 1/5) := by
  constructor
  · intro hp
    rw [fallback_segments, List.mem_map] at hp
    obtain ⟨i, hi, hf⟩ := hp
    exact ⟨i, List.mem_range.mp hi, hf.symm⟩
  · rintro ⟨i, hi, rfl⟩
    rw [fallback_segments, List.mem_map]
    exact ⟨i, List.mem_range.mpr hi, rfl⟩

theorem fallback_mul_num (d : ℚ) :
    (fallback_num_segments d : ℚ) * (d / fallback_num_segments d) = d := by
  have h := fallback_num_segments_cast_pos d
  field_simp

theorem fallback_end_le (d : ℚ) (hd : 0 ≤ d) :
    ∀ p ∈ fallback_segments d, p.2 ≤ d - 1/5 := by
  intro p hp
  obtain ⟨i, hi, rfl⟩ := (mem_fallback_segments d p).mp hp
  have hdiv : (0 : ℚ) ≤ d / fallback_num_segments d :=
    div_nonneg hd (fallback_num_segments_cast_pos d).le
  have hle : ((i : ℚ) + 1) ≤ (fallback_num_segments d : ℚ) := by
    exact_mod_cast hi
  have := mul_le_mul_of_nonneg_right hle hdiv
  rw [fallback_mul_num] at this
  simpa using sub_le_sub_right this (1/5)

theorem fallback_last_end (d : ℚ) :
    ∃ p ∈ fallback_segments d, p.2 = d - 1/5 := by
  refine ⟨((fallback_num_segments d - 1 : ℕ) * (d / fallback_num_segments d),
    ((fallback_num_segments d - 1 : ℕ) + 1) * (d / fallback_num_segments d) - 1/5),
    (mem_fallback_segments d _).mpr ⟨fallback_num_segments d - 1, ?_, rfl⟩, ?_⟩
  · have := fallback_num_segments_ge d
    omega
  · have h3 := fallback_num_segments_ge d
    have hcast : ((fallback_num_segments d - 1 : ℕ) : ℚ) + 1 = (fallback_num_segments d : ℚ) := by
      rw [Nat.cast_sub (by omega : 1 ≤ fallback_num_segments d)]
      ring
    simp only [hcast, fallback_mul_num]

/-- Every segment of a generated transcription comes from one of the raw
`(start, end)` intervals. -/
theorem generate_segments_from (texts : ℕ → String) (d : ℚ) (segs : List (ℚ × ℚ)) :
    ∀ s ∈ (generate_realistic_transcription texts d segs).segments,
      ∃ p ∈ segs, s.start = p.1 ∧ s.stop = p.2 := by
  intro s hs
  simp only [generate_realistic_transcription, List.mem_map] at hs
  obtain ⟨⟨i, x⟩, hq, rfl⟩ := hs
  rw [List.mk_mem_enum_iff_getElem?] at hq
  exact ⟨x, List.getElem?_mem hq, rfl, rfl⟩

/-- Conversely, every raw interval appears as a segment of the generated
transcription. -/
theorem generate_segments_cover (texts : ℕ → String) (d : ℚ) (segs : List (ℚ × ℚ)) :
    ∀ p ∈ segs, ∃ s ∈ (generate_realistic_transcription texts d segs).segments,
      s.start = p.1 ∧ s.stop = p.2 := by
  intro p hp
  obtain ⟨i, hi, hget⟩ := List.mem_iff_getElem.mp hp
  refine ⟨⟨p.1, p.2, texts i⟩, ?_, rfl, rfl⟩
  simp only [generate_realistic_transcription, List.mem_map]
  refine ⟨(i, p), ?_, rfl⟩
  rw [List.mk_mem_enum_iff_getElem?, List.getElem?_eq_getElem hi, hget]

/-! ## Claim C4 -/

/-- Claim C4 counterexample: a Transcript the stage actually produces (VAD
found nothing on a 30-second audio, so the uniform fallback split is used)
has `total_duration = 30`, while every segment end is at most `29.8` — so
`total_duration` is not the maximum segment end. -/
theorem claim_C4_counterexample :
    (generate_realistic_transcription (fun _ => "文本") 30 (fallback_segments 30)).total_duration = 30 ∧
    (∀ s ∈ (generate_realistic_transcription (fun _ => "文本") 30 (fallback_segments 30)).segments,
      s.stop ≤ 30 - 1/5) ∧
    ¬ ((30 : ℚ) ≤ 30 - 1/5) := by
  refine ⟨rfl, ?_, by norm_num⟩
  intro s hs
  obtain ⟨p, hp, _, hstop⟩ := generate_segments_from _ _ _ s hs
  rw [hstop]
  exact fallback_end_le 30 (by norm_num) p hp

/-- Claim C4, amended: `total_duration` of a produced Transcript is the
detected (or estimated) audio duration passed to the generator, not the
maximum segment end; in the fallback split the maximum segment end is
`duration - 0.2`, strictly below `total_duration`. -/
theorem claim_C4 (texts : ℕ → String) (d : ℚ) (hd : 0 ≤ d) (segs : List (ℚ × ℚ)) :
    (generate_realistic_transcription texts d segs).total_duration = d ∧
    (∀ s ∈ (generate_realistic_transcription texts d (fallback_segments d)).segments,
       s.stop ≤ d - 1/5) ∧
    (∃ s ∈ (generate_realistic_transcription texts d (fallback_segments d)).segments,
       s.stop = d - 1/5) ∧
    (generate_realistic_transcription texts d (fallback_segments d)).total_duration ≠ d - 1/5 := by
  refine ⟨rfl, ?_, ?_, by simp only [generate_realistic_transcription]; intro h; linarith⟩
  · intro s hs
    obtain ⟨p, hp, _, hstop⟩ := generate_segments_from _ _ _ s hs
    rw [hstop]
    exact fallback_end_le d hd p hp
  · obtain ⟨p, hp, hp2⟩ := fallback_last_end d
    obtain ⟨s, hs, _, hstop⟩ := generate_segments_cover texts d (fallback_segments d) p hp
    exact ⟨s, hs, hstop.trans hp2⟩

/-- Witness for claim C4 at the concrete duration 30. -/
theorem claim_C4_witness :
    (0 : ℚ) ≤ 30 ∧
    ((generate_realistic_transcription (fun _ => "文") 30 []).total_duration = 30 ∧
     (∀ s ∈ (generate_realistic_transcription (fun _ => "文") 30 (fallback_segments 30)).segments,
        s.stop ≤ 30 - 1/5) ∧
     (∃ s ∈ (generate_realistic_transcription (fun _ => "文") 30 (fallback_segments 30)).segments,
        s.stop = 30 - 1/5) ∧
     (generate_realistic_transcription (fun _ => "文") 30 (fallback_segments 30)).total_duration ≠ 30 - 1/5) :=
  ⟨by norm_num, claim_C4 (fun _ => "文") 30 (by norm_num) []⟩

/-! ## Claim C8 -/

/-- Claim C8 counterexample: the fallback intervals do not span the whole
duration `[0, d]`.  For `d = 30` the split is into 3 intervals whose ends
are all at most `29.8`, so the point `29.9 ∈ [0, 30]` lies in none of
them. -/
theorem claim_C8_counterexample :
    (0 : ℚ) ≤ 299/10 ∧ (299/10 : ℚ) ≤ 30 ∧
    ∀ p ∈ fallback_segments 30, ¬ (p.1 ≤ 299/10 ∧ 299/10 ≤ p.2) := by
  refine ⟨by norm_num, by norm_num, ?_⟩
  rintro p hp ⟨_, h2⟩
  have := fallback_end_le 30 (by norm_num) p hp
  linarith

/-- Claim C8, amended: when VAD detects zero intervals the stage falls back
to a deterministic split into `max(3, ⌊d/10⌋) ≥ 3` intervals of equal length
`d/n - 0.2`, the i-th being `[i·d/n, (i+1)·d/n - 0.2]`: the first starts at
0 and the last ends at `d - 0.2`, but each interval stops 0.2 s short of the
next one's start, so together they do not cover `[0, d]`. -/
theorem claim_C8 (d : ℚ) (hd : 0 ≤ d) :
    (fallback_segments d).length = fallback_num_segments d ∧
    3 ≤ fallback_num_segments d ∧
    (∀ p ∈ fallback_segments d, p.2 - p.1 = d / fallback_num_segments d - 1/5) ∧
    ((0 : ℚ), d / fallback_num_segments d - 1/5) ∈ fallback_segments d ∧
    (∃ p ∈ fallback_segments d, p.2 = d - 1/5) ∧
    (∀ p ∈ fallback_segments d, p.2 ≤ d - 1/5) := by
  refine ⟨?_, fallback_num_segments_ge d, ?_, ?_, fallback_last_end d, fallback_end_le d hd⟩
  · simp [fallback_segments]
  · intro p hp
    obtain ⟨i, hi, rfl⟩ := (mem_fallback_segments d p).mp hp
    ring
  · refine (mem_fallback_segments d _).mpr
      ⟨0, by have := fallback_num_segments_ge d; omega, ?_⟩
    norm_num

/-- Witness for claim C8 at the concrete duration 30. -/
theorem claim_C8_witness :
    (0 : ℚ) ≤ 30 ∧
    ((fallback_segments 30).length = fallback_num_segments 30 ∧
     3 ≤ fallback_num_segments 30 ∧
     (∀ p ∈ fallback_segments 30, p.2 - p.1 = 30 / fallback_num_segments 30 - 1/5) ∧
     ((0 : ℚ), (30 : ℚ) / (fallback_num_segments 30 : ℚ) - 1/5) ∈ fallback_segments 30 ∧
     (∃ p ∈ fallback_segments 30, p.2 = 30 - 1/5) ∧
     (∀ p ∈ fallback_segments 30, p.2 ≤ 30 - 1/5)) :=
  ⟨by norm_num, claim_C8 30 (by norm_num)⟩

/-! ## VAD scan invariant (claim C5) -/

/-- Invariant of the VAD scan after processing the frames before index `i`:
all closed segments start at a non-negative time, last at least `minDur`,
end no later than the current time, and are listed in non-decreasing start
order; while inside a speech run, its start time is non-negative and no
earlier than any closed segment's start. -/
def VadInv (minDur c : ℚ) (i : ℕ) (s : VadState) : Prop :=
  (∀ p ∈ s.segs, 0 ≤ p.1 ∧ p.1 + minDur ≤ p.2 ∧ p.2 ≤ (i : ℚ) * c) ∧
  s.segs.Pairwise (fun p q => p.1 ≤ q.1) ∧
  (s.inSpeech = true → 0 ≤ s.speechStart ∧ ∀ p ∈ s.segs, p.1 ≤ s.speechStart)

theorem vadStep_inv {thr minDur maxDur c : ℚ} (hc : 0 ≤ c) (hm : 0 ≤ minDur)
    {i : ℕ} {s : VadState} (h : VadInv minDur c i s) (e : ℚ) :
    VadInv minDur c (i + 1) (vadStep thr minDur maxDur c s (i, e)) := by
  obtain ⟨h1, h2, h3⟩ := h
  have hcast : ((i + 1 : ℕ) : ℚ) = (i : ℚ) + 1 := by push_cast; ring
  have hmono : (i : ℚ) * c ≤ ((i + 1 : ℕ) : ℚ) * c := by
    rw [hcast]
    exact mul_le_mul_of_nonneg_right (by linarith) hc
  have ht0 : 0 ≤ (i : ℚ) * c := mul_nonneg (Nat.cast_nonneg i) hc
  rw [vadStep]
  dsimp only
  split_ifs with ha hb hdur
  · -- entering a speech run at time i*c
    refine ⟨fun p hp => ⟨(h1 p hp).1, (h1 p hp).2.1, le_trans (h1 p hp).2.2 hmono⟩, h2, ?_⟩
    intro _
    refine ⟨ht0, fun p hp => ?_⟩
    dsimp only at hp ⊢
    have hbd := h1 p hp
    linarith [hbd.1, hbd.2.1, hbd.2.2]
  · -- closing the current speech run at time i*c, interval long enough
    obtain ⟨hst0, hall⟩ := h3 hb.1
    refine ⟨?_, ?_, ?_⟩
    · intro p hp
      rcases List.mem_append.mp hp with hold | hnew
      · exact ⟨(h1 p hold).1, (h1 p hold).2.1, le_trans (h1 p hold).2.2 hmono⟩
      · have hp' : p = (s.speechStart, (i : ℚ) * c) := by simpa using hnew
        subst hp'
        exact ⟨hst0, by dsimp only; linarith [hdur], hmono⟩
    · refine List.pairwise_append.mpr ⟨h2, List.pairwise_singleton _ _, ?_⟩
      intro a ha2 b hbm
      have hb' : b = (s.speechStart, (i : ℚ) * c) := by simpa using hbm
      subst hb'
      exact hall a ha2
    · intro hco
      simp at hco
  · -- closing the current speech run, interval too short to keep
    refine ⟨fun p hp => ⟨(h1 p hp).1, (h1 p hp).2.1, le_trans (h1 p hp).2.2 hmono⟩, h2, ?_⟩
    intro hco
    simp at hco
  · -- no transition at this frame
    exact ⟨fun p hp => ⟨(h1 p hp).1, (h1 p hp).2.1, le_trans (h1 p hp).2.2 hmono⟩, h2, h3⟩

theorem vadFold_inv {thr minDur maxDur c : ℚ} (hc : 0 ≤ c) (hm : 0 ≤ minDur) :
    ∀ (l : List ℚ) (i : ℕ) (s : VadState), VadInv minDur c i s →
      VadInv minDur c (i + l.length)
        ((List.enumFrom i l).foldl (vadStep thr minDur maxDur c) s) := by
  intro l
  induction l with
  | nil => intro i s h; simpa using h
  | cons x xs ih =>
    intro i s h
    rw [List.enumFrom_cons, List.foldl_cons]
    have hrec := ih (i + 1) _ (@vadStep_inv thr minDur maxDur c hc hm i s h x)
    have hidx : i + (x :: xs).length = (i + 1) + xs.length := by
      simp [List.length_cons]; omega
    rw [hidx]
    exact hrec

/-- Soundness of `detect_speech_segments`: every detected interval starts at
a non-negative time and lasts at least `minDur`, and the intervals are
listed in non-decreasing start order. -/
theorem detect_speech_segments_sound (energies : List ℚ)
    (sr threshold minDur maxDur : ℚ) (hsr : 0 < sr) (hm : 0 ≤ minDur) :
    (∀ p ∈ detect_speech_segments energies sr threshold minDur maxDur,
       0 ≤ p.1 ∧ p.1 + minDur ≤ p.2) ∧
    (detect_speech_segments energies sr threshold minDur maxDur).Pairwise
      (fun p q => p.1 ≤ q.1) := by
  have hc : 0 ≤ vadTimeStep sr := by
    rw [vadTimeStep, vadHopLength]
    have h1 : (0 : ℚ) ≤ ((⌊sr / 100⌋ : ℤ) : ℚ) := by
      have h2 : (0 : ℤ) ≤ ⌊sr / 100⌋ := Int.floor_nonneg.mpr (by positivity)
      exact_mod_cast h2
    exact div_nonneg h1 hsr.le
  have hinv0 : VadInv minDur (vadTimeStep sr) 0 ⟨false, 0, []⟩ :=
    ⟨by simp, by simp, by simp⟩
  have hinv := @vadFold_inv (threshold * qMean energies) minDur maxDur
    (vadTimeStep sr) hc hm energies 0 _ hinv0
  rw [detect_speech_segments]
  simp only [List.enum] at *
  set S := (List.enumFrom 0 energies).foldl
    (vadStep (threshold * qMean energies) minDur maxDur (vadTimeStep sr)) ⟨false, 0, []⟩ with hS
  obtain ⟨hb, hpw, hins⟩ := hinv
  by_cases hfin : S.inSpeech = true ∧
      minDur ≤ ((energies.length - 1 : ℕ) : ℚ) * vadTimeStep sr - S.speechStart
  · rw [if_pos hfin]
    obtain ⟨hst0, hall⟩ := hins hfin.1
    constructor
    · intro p hp
      rcases List.mem_append.mp hp with hold | hnew
      · exact ⟨(hb p hold).1, (hb p hold).2.1⟩
      · have hp' : p = (S.speechStart, ((energies.length - 1 : ℕ) : ℚ) * vadTimeStep sr) := by
          simpa using hnew
        subst hp'
        exact ⟨hst0, by dsimp only; linarith [hfin.2]⟩
    · refine List.pairwise_append.mpr ⟨hpw, List.pairwise_singleton _ _, ?_⟩
      intro a ha b hbm
      have hb' : b = (S.speechStart, ((energies.length - 1 : ℕ) : ℚ) * vadTimeStep sr) := by
        simpa using hbm
      subst hb'
      exact hall a ha
  · rw [if_neg hfin]
    exact ⟨fun p hp => ⟨(hb p hp).1, (hb p hp).2.1⟩, hpw⟩

/-! ## Claim C5 -/

theorem fallback_step_gt (d : ℚ) (hd : 3/5 < d) :
    1/5 < d / fallback_num_segments d := by
  have hd0 : (0 : ℚ) < d := by linarith
  have hpos := fallback_num_segments_cast_pos d
  rw [lt_div_iff₀ hpos]
  rcases le_or_lt (Int.toNat ⌊d / 10⌋) 3 with hcase | hcase
  · have hn : fallback_num_segments d = 3 := by
      rw [fallback_num_segments]; omega
    rw [hn]; push_cast; linarith
  · have hn : fallback_num_segments d = Int.toNat ⌊d / 10⌋ := by
      rw [fallback_num_segments]; omega
    have hfl0 : (0 : ℤ) ≤ ⌊d / 10⌋ := Int.floor_nonneg.mpr (by positivity)
    have hle : ((fallback_num_segments d : ℕ) : ℚ) ≤ d / 10 := by
      rw [hn]
      have h1 : ((Int.toNat ⌊d / 10⌋ : ℕ) : ℚ) = ((⌊d / 10⌋ : ℤ) : ℚ) := by
        exact_mod_cast Int.toNat_of_nonneg hfl0
      rw [h1]
      exact Int.floor_le _
    linarith

theorem fallback_pairwise (d : ℚ) (hd : 0 ≤ d) :
    (fallback_segments d).Pairwise (fun p q => p.1 ≤ q.1) := by
  simp only [fallback_segments]
  rw [List.pairwise_map]
  refine List.Pairwise.imp ?_ (List.pairwise_lt_range _)
  intro i j hij
  exact mul_le_mul_of_nonneg_right (by exact_mod_cast hij.le)
    (div_nonneg hd (fallback_num_segments_cast_pos d).le)

/-- Claim C5 counterexample: the fallback split applied to a short duration
(here 0.3 s — e.g. a short audio in which VAD finds no speech) produces a
first segment from 0 to −0.1, violating `start < end`. -/
theorem claim_C5_counterexample :
    ∃ p ∈ fallback_segments (3/10 : ℚ), ¬ (p.1 < p.2) := by
  have h3 : fallback_num_segments (3/10 : ℚ) = 3 := by
    rw [fallback_num_segments]
    norm_num
  refine ⟨_, (mem_fallback_segments _ _).mpr ⟨0, by omega, rfl⟩, ?_⟩
  rw [h3]
  push_cast
  norm_num

/-- Claim C5, amended: every VAD-detected interval satisfies
`0 ≤ start < end` and the intervals are in non-decreasing start order (for
any positive sample rate and positive `min_duration`, as in the stage's
invocation with 0.5 s); the fallback split's segments are in non-decreasing
start order with non-negative starts, but satisfy `start < end` only when
the duration exceeds 0.6 s (each fallback segment has length
`d/n − 0.2`). -/
theorem claim_C5 :
    (∀ (energies : List ℚ) (sr threshold minDur maxDur : ℚ), 0 < sr → 0 < minDur →
       (∀ p ∈ detect_speech_segments energies sr threshold minDur maxDur,
          0 ≤ p.1 ∧ p.1 < p.2) ∧
       (detect_speech_segments energies sr threshold minDur maxDur).Pairwise
         (fun p q => p.1 ≤ q.1)) ∧
    (∀ d : ℚ, 3/5 < d →
       (∀ p ∈ fallback_segments d, 0 ≤ p.1 ∧ p.1 < p.2) ∧
       (fallback_segments d).Pairwise (fun p q => p.1 ≤ q.1)) := by
  constructor
  · intro energies sr threshold minDur maxDur hsr hm
    obtain ⟨hb, hpw⟩ := detect_speech_segments_sound energies sr threshold minDur maxDur hsr hm.le
    exact ⟨fun p hp => ⟨(hb p hp).1, by linarith [(hb p hp).2]⟩, hpw⟩
  · intro d hd
    have hd0 : (0 : ℚ) ≤ d := by linarith
    refine ⟨?_, fallback_pairwise d hd0⟩
    intro p hp
    obtain ⟨i, hi, rfl⟩ := (mem_fallback_segments d p).mp hp
    have hstep := fallback_step_gt d hd
    have hdiv : (0 : ℚ) ≤ d / fallback_num_segments d :=
      div_nonneg hd0 (fallback_num_segments_cast_pos d).le
    constructor
    · exact mul_nonneg (Nat.cast_nonneg i) hdiv
    · nlinarith [hstep, hdiv]

/-- Witness for claim C5 at a concrete sample rate, threshold and
duration. -/
theorem claim_C5_witness :
    ((0 : ℚ) < 16000 ∧ (0 : ℚ) < 1/2 ∧ (3/5 : ℚ) < 30) ∧
    ((∀ p ∈ detect_speech_segments [1, 1, 1] 16000 (1/100) (1/2) 10,
        0 ≤ p.1 ∧ p.1 < p.2) ∧
     (detect_speech_segments [1, 1, 1] 16000 (1/100) (1/2) 10).Pairwise
       (fun p q => p.1 ≤ q.1)) ∧
    ((∀ p ∈ fallback_segments 30, 0 ≤ p.1 ∧ p.1 < p.2) ∧
     (fallback_segments 30).Pairwise (fun p q => p.1 ≤ q.1)) :=
  ⟨⟨by norm_num, by norm_num, by norm_num⟩,
   claim_C5.1 [1, 1, 1] 16000 (1/100) (1/2) 10 (by norm_num) (by norm_num),
   claim_C5.2 30 (by norm_num)⟩

/-! ## Replace-loop lemmas (claims C1, C2, C3) -/

theorem ReplaceRec.update_progress_twice (r : ReplaceRec) (a b : ℚ) :
    ({ { r with progress := a } with progress := b } : ReplaceRec) =
      { r with progress := b } := rfl

theorem list_enum_zero {α : Type} (l : List α) : l.enum = List.enumFrom 0 l := rfl

/-- Running the loop over segments `k, k+1, …` when segment `i` is the
first whose sub-task outcome is not completed-with-missing-result (the only
outcome the loop survives): one sub-task is submitted per index in `[k, i]`,
the loop's last written progress is segment `i`'s, and the pending
exception names index `i` — via the line-628 `ValueError` when the sub-task
failed, via the line-615 `AttributeError` when it completed with an
available result. -/
theorem replace_loop_abort (n : ℕ) (outcomes : ℕ → SynthOutcome) (i : ℕ)
    (hbad : outcomes i ≠ SynthOutcome.completedMissing) :
    ∀ (l : List (ℚ × ℚ)) (k : ℕ) (r : ReplaceRec),
      k ≤ i → i < k + l.length →
      (∀ j, k ≤ j → j < i → outcomes j = SynthOutcome.completedMissing) →
      (replace_loop n outcomes (List.enumFrom k l) r).trace =
        (List.range' k (i + 1 - k)).map
          (fun j => { r with progress := replace_progress n j }) ∧
      (replace_loop n outcomes (List.enumFrom k l) r).submitted =
        List.range' k (i + 1 - k) ∧
      (replace_loop n outcomes (List.enumFrom k l) r).finalRec =
        { r with progress := replace_progress n i } ∧
      (replace_loop n outcomes (List.enumFrom k l) r).abortMsg =
        some (seg_abort_msg (outcomes i) i) := by
  intro l
  induction l with
  | nil =>
    intro k r hk hlt _
    simp at hlt
    omega
  | cons x xs ih =>
    intro k r hk hlt hpre
    rw [List.enumFrom_cons]
    rcases Nat.eq_or_lt_of_le hk with hki | hki
    · subst hki
      rw [replace_loop]
      have h1 : k + 1 - k = 1 := by omega
      rw [h1, List.range'_one]
      cases hout : outcomes k with
      | failed => simp [seg_abort_msg, hout]
      | completedMissing => exact absurd hout hbad
      | ok => simp [seg_abort_msg, hout]
    · have hcm : outcomes k = SynthOutcome.completedMissing := hpre k le_rfl hki
      have harith : i + 1 - k = (i + 1 - (k + 1)) + 1 := by omega
      rw [replace_loop]
      simp only [hcm]
      obtain ⟨ht, hs, hf, ha⟩ := ih (k + 1) { r with progress := replace_progress n k }
        (by omega) (by simp at hlt ⊢; omega)
        (fun j hj1 hj2 => hpre j (by omega) hj2)
      simp only [ReplaceRec.update_progress_twice] at ht hf
      refine ⟨?_, ?_, hf, ha⟩
      · rw [harith, List.range'_succ, List.map_cons, ← ht]
      · rw [harith, List.range'_succ, ← hs]

/-- Running the loop over segments `k, k+1, …` when every remaining
sub-task completes with a missing result: every segment is submitted, the
loop runs to the end and no exception is pending (and nothing was
collected — the source never collects anything). -/
theorem replace_loop_success (n : ℕ) (outcomes : ℕ → SynthOutcome) :
    ∀ (l : List (ℚ × ℚ)) (k : ℕ) (r : ReplaceRec),
      (∀ j, k ≤ j → j < k + l.length → outcomes j = SynthOutcome.completedMissing) →
      (replace_loop n outcomes (List.enumFrom k l) r).trace =
        (List.range' k l.length).map
          (fun j => { r with progress := replace_progress n j }) ∧
      (replace_loop n outcomes (List.enumFrom k l) r).submitted =
        List.range' k l.length ∧
      (replace_loop n outcomes (List.enumFrom k l) r).finalRec =
        (if l.length = 0 then r
         else { r with progress := replace_progress n (k + l.length - 1) }) ∧
      (replace_loop n outcomes (List.enumFrom k l) r).abortMsg = none := by
  intro l
  induction l with
  | nil =>
    intro k r _
    simp [replace_loop]
  | cons x xs ih =>
    intro k r hpre
    rw [List.enumFrom_cons]
    have hcm : outcomes k = SynthOutcome.completedMissing := hpre k le_rfl (by simp)
    rw [replace_loop]
    simp only [hcm]
    obtain ⟨ht, hs, hf, ha⟩ := ih (k + 1) { r with progress := replace_progress n k }
      (fun j hj1 hj2 => hpre j (by omega) (by simp; omega))
    simp only [ReplaceRec.update_progress_twice] at ht hf
    refine ⟨?_, ?_, ?_, ha⟩
    · rw [List.length_cons, List.range'_succ, List.map_cons, ← ht]
    · rw [List.length_cons, List.range'_succ, ← hs]
    · rw [hf]
      by_cases hxs : xs.length = 0
      · simp only [hxs, if_pos rfl, List.length_cons, hxs]
        have : k + 1 - 1 = k := by omega
        simp [this]
      · rw [if_neg hxs, if_neg (by simp [hxs])]
        have harith2 : k + 1 + xs.length - 1 = k + (x :: xs).length - 1 := by
          simp only [List.length_cons]
          omega
        rw [harith2]

/-! ## Claim C1 -/

/-- Claim C1: if the synthesis sub-task for segment `i` is the first to
terminate failed — which entails that every earlier segment was passed, and
the loop passes a segment only when its sub-task completed with an
unavailable result (an available result aborts the run at that earlier
segment via the line-615 `AttributeError`, so segment `i` would never be
submitted) — then the orchestrator submits sub-tasks exactly for segments
`0..i` (none after `i`), marks the parent replace task failed with an error
message naming index `i`, leaves `file_path` unset, and writes no output
artifact. -/
theorem claim_C1 (isVideo : Bool) (segs : List (ℚ × ℚ)) (outcomes : ℕ → SynthOutcome)
    (i : ℕ) (hi : i < segs.length) (hfail : outcomes i = SynthOutcome.failed)
    (hprev : ∀ j, j < i → outcomes j = SynthOutcome.completedMissing) :
    (process_replace_task true true isVideo segs outcomes).submitted = List.range (i + 1) ∧
    (process_replace_task true true isVideo segs outcomes).finalRec.status = TStatus.failed ∧
    (process_replace_task true true isVideo segs outcomes).finalRec.error =
      some (seg_fail_msg i) ∧
    (process_replace_task true true isVideo segs outcomes).finalRec.file_path = none ∧
    (process_replace_task true true isVideo segs outcomes).artifact = none := by
  have hn : ¬ (segs.length = 0) := by omega
  have hbad : outcomes i ≠ SynthOutcome.completedMissing := by
    rw [hfail]
    simp
  obtain ⟨ht, hs, hf, ha⟩ := replace_loop_abort segs.length outcomes i hbad segs 0
    replace_r2 (by omega) (by omega) (fun j _ hj => hprev j hj)
  rw [process_replace_task]
  simp only [if_neg hn, show ¬((true : Bool) = false) from by simp, if_false, ite_false,
    if_neg (show ¬((true : Bool) = false) from by simp)]
  rw [list_enum_zero]
  rw [ha, hfail]
  refine ⟨?_, rfl, rfl, ?_, rfl⟩
  · rw [hs, List.range_eq_range']
    congr 1
  · rw [hf]
    rfl

/-- Scenario-B witness for claim C1: 3-segment transcript, segment index 1
(0-based) fails, segment 0 having been passed (its sub-task completed with
an unavailable result). -/
theorem claim_C1_witness :
    (1 < ([((0 : ℚ), (1 : ℚ)), (1, 2), (2, 3)]).length ∧
       (fun j => if j = 1 then SynthOutcome.failed else SynthOutcome.completedMissing) 1 =
         SynthOutcome.failed) ∧
    ((process_replace_task true true false [((0 : ℚ), (1 : ℚ)), (1, 2), (2, 3)]
        (fun j => if j = 1 then SynthOutcome.failed else SynthOutcome.completedMissing)).submitted =
        List.range 2 ∧
     (process_replace_task true true false [((0 : ℚ), (1 : ℚ)), (1, 2), (2, 3)]
        (fun j => if j = 1 then SynthOutcome.failed else SynthOutcome.completedMissing)).finalRec.status =
        TStatus.failed ∧
     (process_replace_task true true false [((0 : ℚ), (1 : ℚ)), (1, 2), (2, 3)]
        (fun j => if j = 1 then SynthOutcome.failed else SynthOutcome.completedMissing)).finalRec.error =
        some (seg_fail_msg 1) ∧
     (process_replace_task true true false [((0 : ℚ), (1 : ℚ)), (1, 2), (2, 3)]
        (fun j => if j = 1 then SynthOutcome.failed else SynthOutcome.completedMissing)).finalRec.file_path =
        none ∧
     (process_replace_task true true false [((0 : ℚ), (1 : ℚ)), (1, 2), (2, 3)]
        (fun j => if j = 1 then SynthOutcome.failed else SynthOutcome.completedMissing)).artifact = none) :=
  ⟨⟨by decide, by decide⟩,
   claim_C1 false [((0 : ℚ), (1 : ℚ)), (1, 2), (2, 3)]
     (fun j => if j = 1 then SynthOutcome.failed else SynthOutcome.completedMissing) 1
     (by decide) (by decide)
     (fun j hj => by
       have hj0 : j = 0 := by omega
       subst hj0
       decide)⟩

/-! ## Claim C3 -/

/-- Claim C3 counterexample: a replace run over a 1-segment transcript whose
synthesis sub-task completes but whose result is unavailable
(`get_tts_task_result` returns `None`) silently skips the segment, then
marks the task completed with an artifact that is a mere copy of the
original media — not assembled from a successful synthesis result for every
segment (not stitched from anything at all). -/
theorem claim_C3_counterexample :
    (process_replace_task true true false [((0 : ℚ), (1 : ℚ))]
        (fun _ => SynthOutcome.completedMissing)).finalRec.status = TStatus.completed ∧
    (process_replace_task true true false [((0 : ℚ), (1 : ℚ))]
        (fun _ => SynthOutcome.completedMissing)).artifact = some Artifact.originalCopy ∧
    Artifact.originalCopy ≠ Artifact.stitched [] :=
  ⟨rfl, rfl, by decide⟩

/-- Claim C3, amended: a replace task is marked completed only if every
segment's synthesis sub-task terminated completed with an unavailable
result — a failed sub-task aborts the run, and so does an available result,
because reading `tts_result.file_path` raises `AttributeError`
(`TTSTaskStatus` has no such field) — and the exposed artifact is then
always a plain copy of the original media, never assembled from any
synthesis result. -/
theorem claim_C3 (tFound mFound isVideo : Bool) (segs : List (ℚ × ℚ))
    (outcomes : ℕ → SynthOutcome)
    (hc : (process_replace_task tFound mFound isVideo segs outcomes).finalRec.status =
      TStatus.completed) :
    (∀ j, j < segs.length → outcomes j = SynthOutcome.completedMissing) ∧
    (process_replace_task tFound mFound isVideo segs outcomes).artifact =
      some Artifact.originalCopy := by
  cases tFound with
  | false => exact absurd hc (by rw [process_replace_task]; simp [failRec])
  | true =>
  cases mFound with
  | false => exact absurd hc (by rw [process_replace_task]; simp [failRec])
  | true =>
  by_cases hn : segs.length = 0
  · exact absurd hc (by rw [process_replace_task]; simp [hn, failRec])
  · have hall : ∀ j, j < segs.length → outcomes j = SynthOutcome.completedMissing := by
      intro j hj
      by_contra hne
      have hex : ∃ m, outcomes m ≠ SynthOutcome.completedMissing := ⟨j, hne⟩
      have hfirst : ∀ m, m < Nat.find hex → outcomes m = SynthOutcome.completedMissing :=
        fun m hm => not_not.mp (Nat.find_min hex hm)
      have hilt : Nat.find hex < segs.length :=
        lt_of_le_of_lt (Nat.find_min' hex hne) hj
      obtain ⟨_, _, _, haab⟩ := replace_loop_abort segs.length outcomes (Nat.find hex)
        (Nat.find_spec hex) segs 0 replace_r2 (by omega) (by omega)
        (fun m _ hm => hfirst m hm)
      have hstat : (process_replace_task true true isVideo segs outcomes).finalRec.status =
          TStatus.failed := by
        rw [process_replace_task]
        simp only [if_neg hn, show ¬((true : Bool) = false) from by simp, if_false, ite_false,
          if_neg (show ¬((true : Bool) = false) from by simp)]
        rw [list_enum_zero, haab]
        rfl
      exact absurd (hstat.symm.trans hc) (by simp)
    refine ⟨hall, ?_⟩
    obtain ⟨ht, hs, hf, ha⟩ := replace_loop_success segs.length outcomes segs 0
      replace_r2 (fun j _ hj => hall j (by omega))
    rw [process_replace_task]
    simp only [if_neg hn, show ¬((true : Bool) = false) from by simp, if_false, ite_false,
      if_neg (show ¬((true : Bool) = false) from by simp)]
    rw [list_enum_zero, ha]

/-- Witness for claim C3 at a concrete run that completes (every sub-task
completed with an unavailable result). -/
theorem claim_C3_witness :
    ((process_replace_task true true false [((0 : ℚ), (1 : ℚ))]
        (fun _ => SynthOutcome.completedMissing)).finalRec.status = TStatus.completed) ∧
    ((∀ j, j < ([((0 : ℚ), (1 : ℚ))]).length →
        (fun _ => SynthOutcome.completedMissing) j = SynthOutcome.completedMissing) ∧
     (process_replace_task true true false [((0 : ℚ), (1 : ℚ))]
        (fun _ => SynthOutcome.completedMissing)).artifact = some Artifact.originalCopy) :=
  ⟨rfl, claim_C3 true true false [((0 : ℚ), (1 : ℚ))] (fun _ => SynthOutcome.completedMissing) rfl⟩

/-! ## Claim C2 -/

/-- One admissible step between successive written record states: progress
does not decrease, and a record that is followed by another write is not
terminal. -/
def progressStep {α : Type} (prog : α → ℚ) (stat : α → TStatus) (a b : α) : Prop :=
  prog a ≤ prog b ∧ stat a ≠ TStatus.completed ∧ stat a ≠ TStatus.failed

/-- A legal task-record trace: progress never decreases between successive
writes, and only the last written state may be terminal — hence no field of
a terminal record is ever changed afterwards by the same worker
invocation. -/
def traceOK {α : Type} (prog : α → ℚ) (stat : α → TStatus) (t : List α) : Prop :=
  List.Chain' (progressStep prog stat) t

theorem chain_map_range {α : Type} (R : α → α → Prop) (f : ℕ → α)
    (hR : ∀ j, R (f j) (f (j + 1))) :
    ∀ (m k : ℕ), List.Chain' R ((List.range' k m).map f) := by
  intro m
  induction m with
  | zero => intro k; simp
  | succ m2 ih =>
    intro k
    rw [List.range'_succ, List.map_cons]
    cases m2 with
    | zero => simp
    | succ m3 =>
      rw [List.range'_succ, List.map_cons]
      refine List.Chain'.cons (hR k) ?_
      have h2 := ih (k + 1)
      rwa [List.range'_succ, List.map_cons] at h2

theorem head_map_range {α : Type} (f : ℕ → α) (k m : ℕ) (hm : m ≠ 0) :
    ((List.range' k m).map f).head? = some (f k) := by
  obtain ⟨m2, rfl⟩ := Nat.exists_eq_succ_of_ne_zero hm
  rw [List.range'_succ, List.map_cons]
  rfl

theorem last_map_range {α : Type} (f : ℕ → α) (k m : ℕ) (hm : m ≠ 0) :
    ((List.range' k m).map f).getLast? = some (f (k + m - 1)) := by
  obtain ⟨m2, rfl⟩ := Nat.exists_eq_succ_of_ne_zero hm
  rw [List.range'_concat, List.map_append, List.map_singleton, List.getLast?_concat]
  congr 2
  omega

theorem replace_progress_ge (n j : ℕ) (hn : n ≠ 0) : 1/10 ≤ replace_progress n j := by
  rw [replace_progress]
  have h1 : (0 : ℚ) < n := by exact_mod_cast Nat.pos_of_ne_zero hn
  have h2 : (0 : ℚ) ≤ ((j : ℚ) + 1) / n := by positivity
  linarith

theorem replace_progress_mono (n j : ℕ) (hn : n ≠ 0) :
    replace_progress n j ≤ replace_progress n (j + 1) := by
  rw [replace_progress, replace_progress]
  have h1 : (0 : ℚ) < n := by exact_mod_cast Nat.pos_of_ne_zero hn
  have h2 : ((j : ℚ) + 1) / n ≤ (((j + 1 : ℕ) : ℚ) + 1) / n := by
    apply (div_le_div_iff_of_pos_right h1).mpr
    push_cast
    linarith
  linarith

theorem replace_progress_le (n j : ℕ) (hn : n ≠ 0) (hj : j < n) :
    replace_progress n j ≤ 8/10 := by
  rw [replace_progress]
  have h1 : (0 : ℚ) < n := by exact_mod_cast Nat.pos_of_ne_zero hn
  have h2 : ((j : ℚ) + 1) ≤ (n : ℚ) := by exact_mod_cast hj
  have h3 : ((j : ℚ) + 1) / n ≤ 1 := (div_le_one h1).mpr h2
  linarith

/-- Chain property of the replace trace prefix `[r0, r1, r2]` followed by
the per-segment progress writes and any well-behaved tail. -/
theorem replace_prefix_chain (n m : ℕ) (hn : n ≠ 0) (hm : m ≠ 0)
    (rest : List ReplaceRec)
    (hrest : List.Chain' (progressStep ReplaceRec.progress ReplaceRec.status) rest)
    (hglue : ∀ y ∈ rest.head?, progressStep ReplaceRec.progress ReplaceRec.status
      { replace_r2 with progress := replace_progress n (m - 1) } y) :
    List.Chain' (progressStep ReplaceRec.progress ReplaceRec.status)
      ([replace_r0, replace_r1, replace_r2] ++
        (List.range' 0 m).map (fun j => { replace_r2 with progress := replace_progress n j }) ++
        rest) := by
  rw [List.chain'_append]
  refine ⟨?_, hrest, ?_⟩
  · rw [List.chain'_append]
    refine ⟨?_, ?_, ?_⟩
    · exact List.Chain'.cons
        ⟨by norm_num [replace_r0, replace_r1], by simp [replace_r0], by simp [replace_r0]⟩
        (List.Chain'.cons
          ⟨by norm_num [replace_r0, replace_r1, replace_r2],
           by simp [replace_r0, replace_r1], by simp [replace_r0, replace_r1]⟩
          (List.chain'_singleton _))
    · refine chain_map_range _ _ ?_ m 0
      intro j
      exact ⟨replace_progress_mono n j hn, by simp [replace_r2, replace_r1, replace_r0],
        by simp [replace_r2, replace_r1, replace_r0]⟩
    · intro x hx y hy
      simp only [List.getLast?_cons_cons, List.getLast?_singleton, Option.mem_def,
        Option.some_inj] at hx
      rw [head_map_range _ _ _ hm] at hy
      simp only [Option.mem_def, Option.some_inj] at hy
      subst hx
      subst hy
      exact ⟨by simpa [replace_r2, replace_r1, replace_r0] using replace_progress_ge n 0 hn,
        by simp [replace_r2, replace_r1, replace_r0],
        by simp [replace_r2, replace_r1, replace_r0]⟩
  · intro x hx y hy
    rw [List.getLast?_append, last_map_range _ _ _ hm] at hx
    simp only [Option.or_some, Option.mem_def, Option.some_inj] at hx
    subst hx
    simp only [Nat.zero_add] at *
    exact hglue y hy

/-- The replace worker writes a legal trace for every input. -/
theorem replace_trace_ok (tF mF iV : Bool) (segs : List (ℚ × ℚ))
    (outcomes : ℕ → SynthOutcome) :
    traceOK ReplaceRec.progress ReplaceRec.status
      (process_replace_task tF mF iV segs outcomes).trace := by
  cases tF with
  | false =>
    rw [process_replace_task]
    norm_num [traceOK, List.chain'_cons, progressStep, failRec, replace_r0]; simp
  | true =>
  cases mF with
  | false =>
    rw [process_replace_task]
    norm_num [traceOK, List.chain'_cons, progressStep, failRec, replace_r0]; simp
  | true =>
  by_cases hn : segs.length = 0
  · rw [process_replace_task]
    norm_num [hn, traceOK, List.chain'_cons, progressStep, failRec,
      replace_r0, replace_r1, replace_r2]; simp
  · by_cases hex : ∃ m, m < segs.length ∧ outcomes m ≠ SynthOutcome.completedMissing
    · obtain ⟨m0, hm0lt, hm0f⟩ := hex
      have hexf : ∃ m, outcomes m ≠ SynthOutcome.completedMissing := ⟨m0, hm0f⟩
      have hibad := Nat.find_spec hexf
      have hmin : ∀ m, m < Nat.find hexf → outcomes m = SynthOutcome.completedMissing :=
        fun m hm => not_not.mp (Nat.find_min hexf hm)
      have hilt : Nat.find hexf < segs.length :=
        lt_of_le_of_lt (Nat.find_min' hexf hm0f) hm0lt
      obtain ⟨ht, hs, hf, ha⟩ := replace_loop_abort segs.length outcomes (Nat.find hexf)
        hibad segs 0 replace_r2 (by omega) (by omega) (fun j _ hj => hmin j hj)
      rw [process_replace_task]
      simp only [if_neg hn, show ¬((true : Bool) = false) from by simp, if_false, ite_false,
        if_neg (show ¬((true : Bool) = false) from by simp)]
      rw [list_enum_zero, ha]
      dsimp only
      rw [ht, hf]
      simp only [Nat.sub_zero]
      refine replace_prefix_chain segs.length (Nat.find hexf + 1) hn (by omega) _ ?_ ?_
      · exact List.chain'_singleton _
      · intro y hy
        simp only [List.head?_cons, Option.mem_def, Option.some_inj] at hy
        subst hy
        have harg : Nat.find hexf + 1 - 1 = Nat.find hexf := by omega
        rw [harg]
        exact ⟨le_of_eq rfl, by simp [replace_r2, replace_r1, replace_r0],
          by simp [replace_r2, replace_r1, replace_r0]⟩
    · push_neg at hex
      obtain ⟨ht, hs, hf, ha⟩ := replace_loop_success segs.length outcomes segs 0
        replace_r2 (fun j _ hj => hex j (by omega))
      rw [process_replace_task]
      simp only [if_neg hn, show ¬((true : Bool) = false) from by simp, if_false, ite_false,
        if_neg (show ¬((true : Bool) = false) from by simp)]
      rw [list_enum_zero, ha]
      dsimp only
      rw [ht, hf, if_neg hn]
      simp only [ReplaceRec.update_progress_twice]
      refine replace_prefix_chain segs.length segs.length hn hn _ ?_ ?_
      · exact List.Chain'.cons
          ⟨by norm_num, by simp [replace_r0, replace_r1, replace_r2],
           by simp [replace_r0, replace_r1, replace_r2]⟩
          (List.chain'_singleton _)
      · intro y hy
        simp only [List.head?_cons, Option.mem_def, Option.some_inj] at hy
        subst hy
        refine ⟨?_, by simp [replace_r2, replace_r1, replace_r0],
          by simp [replace_r2, replace_r1, replace_r0]⟩
        simpa [replace_r2, replace_r1, replace_r0] using
          replace_progress_le segs.length (segs.length - 1) hn (by omega)

/-- The transcription worker writes a legal trace for every input. -/
theorem transcription_trace_ok (texts : ℕ → String) (mediaFound loadOk : Bool)
    (d fileSize : ℚ) (vadSegs : List (ℚ × ℚ)) :
    traceOK TransTaskRec.progress TransTaskRec.status
      (process_transcription_task texts mediaFound loadOk d fileSize vadSegs) := by
  cases mediaFound with
  | false =>
    rw [process_transcription_task]
    norm_num [traceOK, List.chain'_cons, progressStep]; simp
  | true =>
    rw [process_transcription_task]
    norm_num [traceOK, List.chain'_cons, progressStep]; simp

/-- The TTS worker writes a legal trace for every input (the trace always
ends failed; see `process_tts_task`). -/
theorem tts_trace_ok (voiceFound hasEmbedding : Bool) :
    traceOK TTSRec.progress TTSRec.status
      (process_tts_task voiceFound hasEmbedding) := by
  cases voiceFound with
  | false =>
    rw [process_tts_task]
    norm_num [traceOK, List.chain'_cons, progressStep]; simp
  | true =>
    cases hasEmbedding with
    | false =>
      rw [process_tts_task]
      norm_num [traceOK, List.chain'_cons, progressStep]; simp
    | true =>
      rw [process_tts_task]
      norm_num [traceOK, List.chain'_cons, progressStep]; simp

/-- Claim C2 counterexample: the no-mutation-after-terminal guarantee fails
across worker invocations, because task ids are pure functions of the
wall-clock second and the input: two TTS submissions for the same voice in
the same second allocate the same id and append two records with that id to
the shared registry.  After the first worker invocation ends (its record is
failed at progress 0.1), the duplicate submission's worker looks up the
FIRST record with that id and sets it back to status processing
(tts_service.py lines 431-446) — a field of a terminal record is changed
afterwards. -/
theorem claim_C2_counterexample :
    synthesize_speech_task_id 1700000000 "voice_a" =
      synthesize_speech_task_id 1700000000 "voice_a" ∧
    (TTSTaskEntry.mk (synthesize_speech_task_id 1700000000 "voice_a")
        ⟨TStatus.failed, 1/10, some tts_unbound_msg, none, none, false, false⟩).record.status =
      TStatus.failed ∧
    tts_set_processing_first (synthesize_speech_task_id 1700000000 "voice_a")
        [⟨synthesize_speech_task_id 1700000000 "voice_a",
          ⟨TStatus.failed, 1/10, some tts_unbound_msg, none, none, false, false⟩⟩,
         ⟨synthesize_speech_task_id 1700000000 "voice_a",
          ⟨TStatus.pending, 0, none, none, none, false, false⟩⟩] =
      [⟨synthesize_speech_task_id 1700000000 "voice_a",
        ⟨TStatus.processing, 1/10, some tts_unbound_msg, none, none, false, false⟩⟩,
       ⟨synthesize_speech_task_id 1700000000 "voice_a",
        ⟨TStatus.pending, 0, none, none, none, false, false⟩⟩] ∧
    TStatus.processing ≠ TStatus.failed := by
  refine ⟨rfl, rfl, ?_, by simp⟩
  rw [tts_set_processing_first, if_pos rfl]

/-- Claim C2, amended: each single worker invocation, acting on its own
task record, writes a monotonically non-decreasing progress sequence in
which only the last written state may be terminal (so that invocation never
changes a field of a record it has put into a terminal state).  The claim
as stated fails across invocations: ids collide within a second, and a
duplicate submission's worker re-processes the first record with that id,
mutating it after it is terminal. -/
theorem claim_C2 :
    (∀ (tFound mFound isVideo : Bool) (segs : List (ℚ × ℚ))
       (outcomes : ℕ → SynthOutcome),
       traceOK ReplaceRec.progress ReplaceRec.status
         (process_replace_task tFound mFound isVideo segs outcomes).trace) ∧
    (∀ (texts : ℕ → String) (mediaFound loadOk : Bool) (d fileSize : ℚ)
       (vadSegs : List (ℚ × ℚ)),
       traceOK TransTaskRec.progress TransTaskRec.status
         (process_transcription_task texts mediaFound loadOk d fileSize vadSegs)) ∧
    (∀ (voiceFound hasEmbedding : Bool),
       traceOK TTSRec.progress TTSRec.status
         (process_tts_task voiceFound hasEmbedding)) :=
  ⟨replace_trace_ok, transcription_trace_ok, tts_trace_ok⟩

end VoiceT
